import Mathlib

/-!
Verification development for the stablecoin supply API route
(`src/unnamed/part_006`, the Next.js `GET /api/supply` handler).

The route is embedded shallowly and executably:

* JavaScript `Map` objects become association lists in insertion order
  (`Map.set` of an existing key updates in place, a new key appends,
  iteration follows insertion order).
* `Date.now()` becomes an explicit `now : ℤ` argument (milliseconds).
* `bigint` supply values become `ℕ` (the route only parses nonnegative
  decimal supplies and adds them; no operation can produce a negative).
* Decimal strings produced by `BigInt.prototype.toString` and re-parsed by
  `BigInt(...)` become big-endian digit lists (`decDigits` / `decVal`).
* The upstream fetch becomes a parameter `f : ℕ → FetchOutcome` giving the
  outcome of the n-th physical attempt; timers (the retry backoff and the
  5-second abort timeout) are reflected in the `elapsed` field of the retry
  wrapper and in the `abortError` outcome.
* `this.ttl * 0.8` (floating point) is modelled exactly as
  `5 * age ≥ 4 * ttl`; at the deployed `CACHE_TTL = 3600000` the double
  product `3600000 * 0.8` rounds to exactly `2880000 = 4/5 * 3600000`, so
  the model agrees with the float comparison there.
* Logging (`console.warn` / `console.error`), HTTP header assembly, the
  ETag hash and the periodic `scheduleCleanup` timer have no effect on the
  values the claims talk about and are not modelled.
-/

/-! ## Decimal digit strings -/

/-- Little-endian decimal digits of `n`, with structural fuel so that the
kernel can evaluate it (mirrors `BigInt.prototype.toString(10)` up to
reversal). -/
def decDigitsCore : ℕ → ℕ → List ℕ
  | 0, _ => []
  | fuel + 1, n => if n = 0 then [] else n % 10 :: decDigitsCore fuel (n / 10)

/-- Big-endian decimal digit string of `n`: the model of
`value.toString()` on a `bigint`. -/
def decDigits (n : ℕ) : List ℕ := (decDigitsCore n n).reverse

/-- Numeric value of a big-endian decimal digit string: the model of
`BigInt(s)` on a decimal string `s`. -/
def decVal (ds : List ℕ) : ℕ := Nat.ofDigits 10 ds.reverse

/-! ## JavaScript `Map` as an association list -/

/-- `Map.prototype.get`. -/
def jsMapGet {β : Type} (k : String) : List (String × β) → Option β
  | [] => none
  | (k1, v) :: t => if k1 = k then some v else jsMapGet k t

/-- `Map.prototype.set`: update in place if present, else append. -/
def jsMapSet {β : Type} (k : String) (v : β) : List (String × β) → List (String × β)
  | [] => [(k, v)]
  | (k1, v1) :: t => if k1 = k then (k, v) :: t else (k1, v1) :: jsMapSet k v t

/-- `Map.prototype.delete`. -/
def jsMapDelete {β : Type} (k : String) : List (String × β) → List (String × β)
  | [] => []
  | (k1, v1) :: t => if k1 = k then t else (k1, v1) :: jsMapDelete k t

/-! ## The LRU cache (`class LRUCache`) -/

/-- One cache slot: `{ value: bigint; timestamp: number; lastAccessed: number }`. -/
structure CacheEntry where
  value : ℕ
  timestamp : ℤ
  lastAccessed : ℤ
deriving DecidableEq

/-- The cache object: its backing `Map` plus the `maxSize` / `ttl`
configuration. -/
structure LRUCache where
  entries : List (String × CacheEntry)
  maxSize : ℕ
  ttl : ℤ
deriving DecidableEq

/-- What `LRUCache.get` hands back on a hit. -/
structure GetHit where
  value : ℕ
  timestamp : ℤ
  isNearingExpiration : Bool
deriving DecidableEq

/-- `get(key)`: expired entries (age `≥ ttl`) are deleted and reported as a
miss; a hit refreshes `lastAccessed` and reports whether age has reached
80% of the TTL. Returns the result together with the mutated cache. -/
def LRUCache.get (c : LRUCache) (now : ℤ) (key : String) : Option GetHit × LRUCache :=
  match jsMapGet key c.entries with
  | none => (none, c)
  | some entry =>
    if now - entry.timestamp ≥ c.ttl then
      (none, { c with entries := jsMapDelete key c.entries })
    else
      (some ⟨entry.value, entry.timestamp, decide (5 * (now - entry.timestamp) ≥ 4 * c.ttl)⟩,
        { c with entries := jsMapSet key { entry with lastAccessed := now } c.entries })

/-- `has(key)`: a raw `Map.has` probe, no TTL check, no mutation. -/
def LRUCache.has (c : LRUCache) (key : String) : Bool :=
  (jsMapGet key c.entries).isSome

/-- `get size()`. -/
def LRUCache.size (c : LRUCache) : ℕ := c.entries.length

/-- `evictLRU()`: scan in insertion order for the first entry whose
`lastAccessed` is strictly below the running minimum, which starts at
`Date.now()`; delete it if one was found (`if (lruKey)` also skips the
falsy empty-string key). -/
def LRUCache.evictLRU (c : LRUCache) (now : ℤ) : LRUCache :=
  if c.entries = [] then c
  else
    let scan := c.entries.foldl
      (fun (acc : Option String × ℤ) p =>
        if p.2.lastAccessed < acc.2 then (some p.1, p.2.lastAccessed) else acc)
      (none, now)
    match scan.1 with
    | some k => if k = "" then c else { c with entries := jsMapDelete k c.entries }
    | none => c

/-- `set(key, value)`: evict first when at capacity and the key is new,
then write the entry with fresh `timestamp` and `lastAccessed`.
(`evictLRU` reads `Date.now()` itself; both reads are modelled as the
same millisecond tick.) -/
def LRUCache.set (c : LRUCache) (now : ℤ) (key : String) (value : ℕ) : LRUCache :=
  let c1 := if c.maxSize ≤ c.size ∧ c.has key = false then c.evictLRU now else c
  { c1 with entries := jsMapSet key ⟨value, now, now⟩ c1.entries }

/-- `cleanExpired()`: drop every entry whose age has reached the TTL. -/
def LRUCache.cleanExpired (c : LRUCache) (now : ℤ) : LRUCache :=
  { c with entries := c.entries.filter (fun p => decide (now - p.2.timestamp < c.ttl)) }

/-! ## Route configuration constants -/

def CACHE_TTL : ℤ := 3600000

def MAX_CACHE_SIZE : ℕ := 100

/-- The module-level `cache` object at process start. -/
def cache0 : LRUCache := ⟨[], MAX_CACHE_SIZE, CACHE_TTL⟩

def RATE_LIMIT_WINDOW : ℤ := 60000

def RATE_LIMIT_MAX_REQUESTS : ℕ := 15

def BURST_LIMIT : ℕ := 5

def BURST_WINDOW : ℤ := 10000

def MAX_RETRIES : ℕ := 2

def RETRY_DELAY : ℚ := 1000

/-- The fixed symbol → asset-type table, in source order. -/
def TOKENS : List (String × String) :=
  [("USDt", "0x357b0b74bc833e95a115ad22604854d6b0fca151cecd94111770e5d6ffc9dc2b"),
   ("USDC", "0xbae207659db88bea0cbead6da0ed00aac12edcdda169e591cd41c94180b46f3b"),
   ("USDe", "0xf37a8864fe737eb8ec2c2931047047cbaed1beed3fb0e5b7c5526dafd3b9c2e9"),
   ("sUSDe", "0xb30a694a344edee467d9f82330bbe7c3b89f440a1ecd2da1f3bca266560fce69")]

/-- `Object.values(TOKENS)`. -/
def tokenTypes : List String := TOKENS.map Prod.snd

/-! ## Rate limiter (`checkRateLimit`) -/

/-- One per-client record of `ipRequests`. -/
structure RateRecord where
  count : ℕ
  resetTime : ℤ
  requestTimestamps : List ℤ
deriving DecidableEq

/-- What `checkRateLimit` returns. -/
structure RLResult where
  allowed : Bool
  resetInSeconds : Option ℤ
deriving DecidableEq

/-- `Math.ceil(a / 1000)` for an integer millisecond count `a`. -/
def ceilDivMs (a : ℤ) : ℤ := -((-a).ediv 1000)

/-- `checkRateLimit(ip)` acting on that ip's record (`none` when the map has
no record). Returns the decision and the stored record. -/
def checkRateLimit (now : ℤ) (record? : Option RateRecord) : RLResult × RateRecord :=
  match record? with
  | none => (⟨true, none⟩, ⟨1, now + RATE_LIMIT_WINDOW, [now]⟩)
  | some record =>
    if now ≥ record.resetTime then
      (⟨true, none⟩, ⟨1, now + RATE_LIMIT_WINDOW, [now]⟩)
    else
      let ts := record.requestTimestamps.filter (fun t => decide (now - t < BURST_WINDOW)) ++ [now]
      if BURST_LIMIT < ts.length then
        (⟨false, some (ceilDivMs BURST_WINDOW)⟩, { record with requestTimestamps := ts })
      else
        if RATE_LIMIT_MAX_REQUESTS < record.count + 1 then
          (⟨false, some (ceilDivMs (record.resetTime - now))⟩,
            { record with count := record.count + 1, requestTimestamps := ts })
        else
          (⟨true, none⟩, { record with count := record.count + 1, requestTimestamps := ts })

/-- `checkRateLimit` against the `ipRequests` map, writing the record back. -/
def checkRateLimitMap (now : ℤ) (ip : String) (m : List (String × RateRecord)) :
    RLResult × List (String × RateRecord) :=
  let s := checkRateLimit now (jsMapGet ip m)
  (s.1, jsMapSet ip s.2 m)

/-- Decisions of a sequence of `checkRateLimit` calls for one client at the
given times, starting from no record. -/
def runRL : List ℤ → Option RateRecord → List Bool
  | [], _ => []
  | t :: ts, r? => (checkRateLimit t r?).1.allowed :: runRL ts (some (checkRateLimit t r?).2)

/-- The record left behind by a sequence of `checkRateLimit` calls. -/
def runState : List ℤ → Option RateRecord → Option RateRecord
  | [], r? => r?
  | t :: ts, r? => runState ts (some (checkRateLimit t r?).2)

/-! ## Upstream fetch outcomes and the retry wrapper (`fetchWithRetry`) -/

/-- A `supply_v2` field: the zod schema allows `string` (a decimal digit
string) or `number`. -/
inductive SupplyV2 where
  | str (digitsBE : List ℕ)
  | num (n : ℕ)
deriving DecidableEq

/-- JavaScript truthiness of a `supply_v2` value (`""` and `0` are falsy). -/
def supplyV2Truthy : SupplyV2 → Bool
  | .str ds => decide (ds ≠ [])
  | .num n => decide (n ≠ 0)

/-- `BigInt(item.supply_v2)`. -/
def supplyV2Val : SupplyV2 → ℕ
  | .str ds => decVal ds
  | .num n => n

/-- One element of `data.fungible_asset_metadata`. -/
structure UpItem where
  asset_type : String
  supply_v2 : SupplyV2
deriving DecidableEq

/-- The JSON body of an upstream response: either it fails the zod
`GraphQLResponseSchema` parse, or it is well-formed with its item list and
its (possibly empty) GraphQL `errors` list. -/
inductive UpBody where
  | malformed
  | wellFormed (items : List UpItem) (errors : List String)
deriving DecidableEq

/-- Outcome of one physical `fetch` attempt: an HTTP response with status
and body, a network failure (rejected promise), or an `AbortError` from
the 5-second timeout. -/
inductive FetchOutcome where
  | ok (status : ℕ) (body : UpBody)
  | netError
  | abortError
deriving DecidableEq

/-- Error kinds that escape `fetchWithRetry`. -/
inductive FetchErr where
  | network
  | aborted
deriving DecidableEq

deriving instance DecidableEq for Except

/-- What a `fetchWithRetry` call produced: the final outcome, the total
backoff delay slept, and the number of physical attempts made. -/
structure RetryRun where
  outcome : Except FetchErr (ℕ × UpBody)
  elapsed : ℚ
  calls : ℕ
deriving DecidableEq

/-- `fetchWithRetry(url, options, retries, delay)`, with `f n` the outcome
of the n-th physical attempt. 429 and other 4xx responses return
immediately; 2xx returns; any other status retries while budget remains,
waiting `delay` and multiplying it by 1.5; network failures retry the same
way; `AbortError` is rethrown at once. The source tests `retries > 0`
inside the handlers; hoisting that test to a top-level match is
equivalent (with no budget every HTTP response is returned as-is and
every failure is thrown) and keeps the recursion structural. -/
def fetchWithRetry (f : ℕ → FetchOutcome) : ℕ → ℚ → ℕ → RetryRun
  | 0, _, i =>
    match f i with
    | .ok s b => ⟨.ok (s, b), 0, 1⟩
    | .netError => ⟨.error .network, 0, 1⟩
    | .abortError => ⟨.error .aborted, 0, 1⟩
  | r + 1, delay, i =>
    match f i with
    | .ok s b =>
      if s = 429 ∨ (400 ≤ s ∧ s < 500) then ⟨.ok (s, b), 0, 1⟩
      else if 200 ≤ s ∧ s ≤ 299 then ⟨.ok (s, b), 0, 1⟩
      else
        let rest := fetchWithRetry f r (delay * (3 / 2)) (i + 1)
        ⟨rest.outcome, delay + rest.elapsed, rest.calls + 1⟩
    | .netError =>
      let rest := fetchWithRetry f r (delay * (3 / 2)) (i + 1)
      ⟨rest.outcome, delay + rest.elapsed, rest.calls + 1⟩
    | .abortError => ⟨.error .aborted, 0, 1⟩

/-! ## The supply aggregator (`fetchAllSupplies`) -/

/-- Error conditions that terminate an aggregation (each corresponds to a
`throw new Error(...)` site that can escape `fetchAllSupplies`). -/
inductive AggErr where
  | jsTypeError
  | noCachedDuringRateLimit
  | supplyDataUnavailable
  | missingData
deriving DecidableEq

/-- The `nearingExpirationTypes` filter: `cache.get` is evaluated on every
type in order (each call mutating the cache), keeping the types whose hit
reports `isNearingExpiration === true`. -/
def scanNearing (now : ℤ) : List String → LRUCache → List String × LRUCache
  | [], c => ([], c)
  | t :: ts, c =>
    let g := c.get now t
    let rest := scanNearing now ts g.2
    ((if (match g.1 with
          | some h => h.isNearingExpiration
          | none => false) then t :: rest.1 else rest.1), rest.2)

/-- `[...new Set(l)]`: keep the first occurrence of each element. -/
def dedupFirst (l : List String) : List String :=
  l.foldl (fun acc x => if x ∈ acc then acc else acc ++ [x]) []

/-- The `typesToFetch` computation of `fetchAllSupplies`: the types failing
the raw `cache.has` probe, then the types the mutating `cache.get` scan
reports as nearing expiration, deduplicated. -/
def selectToFetch (now : ℤ) (c : LRUCache) : List String × LRUCache :=
  let expiredTypes := tokenTypes.filter (fun t => !(c.has t))
  let scanned := scanNearing now tokenTypes c
  (dedupFirst (expiredTypes ++ scanned.1), scanned.2)

/-- An `Object.fromEntries(tokenTypes.map(...))` loop that reads each type
with `cache.get` and throws `errOnMiss` at the first miss (aborting the
rest of the loop, but keeping the cache mutations made so far). Models the
`entry!.value` all-cached branch, the 429 fallback loop, and the final
reconciliation loop, which differ only in the error thrown. -/
def readAllGet (now : ℤ) (errOnMiss : AggErr) :
    List String → LRUCache → Except AggErr (List (String × ℕ)) × LRUCache
  | [], c => (.ok [], c)
  | t :: ts, c =>
    match c.get now t with
    | (none, c1) => (.error errOnMiss, c1)
    | (some h, c1) =>
      match readAllGet now errOnMiss ts c1 with
      | (.ok rest, c2) => (.ok ((t, h.value) :: rest), c2)
      | (.error e, c2) => (.error e, c2)

/-- The body of `fallbackToCachedValues`: read every type with `cache.get`
(no early exit), collecting the hits and counting the misses. -/
def fallbackGo (now : ℤ) : List String → LRUCache → List (String × ℕ) × ℕ × LRUCache
  | [], c => ([], 0, c)
  | t :: ts, c =>
    match c.get now t with
    | (some h, c1) =>
      let rest := fallbackGo now ts c1
      ((t, h.value) :: rest.1, rest.2.1, rest.2.2)
    | (none, c1) =>
      let rest := fallbackGo now ts c1
      (rest.1, rest.2.1 + 1, rest.2.2)

/-- `fallbackToCachedValues(tokenTypes)`: throw `Missing data for some
tokens` when any type had no (unexpired) cache entry, else return the
collected values. -/
def fallbackToCachedValues (now : ℤ) (types : List String) (c : LRUCache) :
    Except AggErr (List (String × ℕ)) × LRUCache :=
  let r := fallbackGo now types c
  if 0 < r.2.1 then (.error .missingData, r.2.2) else (.ok r.1, r.2.2)

/-- The `catch` block of `fetchAllSupplies`: log and fall back to cache. -/
def catchPath (now : ℤ) (c : LRUCache) : Except AggErr (List (String × ℕ)) × LRUCache :=
  fallbackToCachedValues now tokenTypes c

/-- The `data.fungible_asset_metadata.forEach` write-through: cache each
item whose `asset_type` and `supply_v2` are both truthy. (The
`updatedTypes` set only feeds a log line and is not modelled.) -/
def writeItems (now : ℤ) (items : List UpItem) (c : LRUCache) : LRUCache :=
  items.foldl
    (fun c it =>
      if it.asset_type ≠ "" ∧ supplyV2Truthy it.supply_v2 then
        c.set now it.asset_type (supplyV2Val it.supply_v2)
      else c)
    c

/-- `fetchAllSupplies()`: decide which types to fetch; if none, serve the
`entry!.value` all-cached branch; otherwise make one batched upstream
query through `fetchWithRetry` and handle 429 / non-2xx / malformed /
GraphQL-error / success exactly as the source does, with every throw
inside the `try` funnelling into the `catch`'s `fallbackToCachedValues`.
The final `ℕ` counts the batched upstream queries issued. -/
def fetchAllSupplies (now : ℤ) (f : ℕ → FetchOutcome) (c : LRUCache) :
    Except AggErr (List (String × ℕ)) × LRUCache × ℕ :=
  let sel := selectToFetch now c
  if sel.1 = [] then
    let r := readAllGet now .jsTypeError tokenTypes sel.2
    (r.1, r.2, 0)
  else
    let run := fetchWithRetry f MAX_RETRIES RETRY_DELAY 0
    match run.outcome with
    | .error _ =>
      let r := catchPath now sel.2
      (r.1, r.2, 1)
    | .ok (status, body) =>
      if status = 429 then
        match readAllGet now .noCachedDuringRateLimit tokenTypes sel.2 with
        | (.ok l, c2) => (.ok l, c2, 1)
        | (.error _, c2) =>
          let r := catchPath now c2
          (r.1, r.2, 1)
      else if ¬(200 ≤ status ∧ status ≤ 299) then
        let r := catchPath now sel.2
        (r.1, r.2, 1)
      else
        match body with
        | .malformed =>
          match fallbackToCachedValues now tokenTypes sel.2 with
          | (.ok l, c2) => (.ok l, c2, 1)
          | (.error _, c2) =>
            let r := catchPath now c2
            (r.1, r.2, 1)
        | .wellFormed items errors =>
          if errors ≠ [] then
            match fallbackToCachedValues now tokenTypes sel.2 with
            | (.ok l, c2) => (.ok l, c2, 1)
            | (.error _, c2) =>
              let r := catchPath now c2
              (r.1, r.2, 1)
          else
            match readAllGet now .supplyDataUnavailable tokenTypes (writeItems now items sel.2) with
            | (.ok l, c3) => (.ok l, c3, 1)
            | (.error _, c3) =>
              let r := catchPath now c3
              (r.1, r.2, 1)

/-! ## The request handler (`GET`) -/

/-- The JSON bodies the handler can produce. The 500 body is the constant
generic pair `error: Internal server error / message: Failed to process
request`; `rateLimited` carries the computed `resetInSeconds` countdown;
supply strings are decimal digit lists, `none` marking a `supply: null`
entry. -/
inductive RespBody where
  | rateLimited (resetInSeconds : ℤ)
  | success (supplies : List (String × List ℕ)) (total : List ℕ) (cached : Bool)
  | partialData (supplies : List (String × Option (List ℕ))) (total : List ℕ)
      (cached : Bool) (partialFlag : Bool)
  | serverError
deriving DecidableEq

/-- Status plus body of a handler response. -/
structure HttpResponse where
  status : ℕ
  body : RespBody
deriving DecidableEq

/-- The module-level mutable state of the route: the supply cache and the
`ipRequests` rate-limit map. -/
structure ApiState where
  cache : LRUCache
  ipRequests : List (String × RateRecord)
deriving DecidableEq

/-- `Object.entries(TOKENS).map(([symbol, type]) => ({symbol, supply:
allSupplies[type].toString()}))`; `none` models the `TypeError` thrown if
a type were missing from the record. -/
def buildResults (supplies : List (String × ℕ)) :
    List (String × String) → Option (List (String × List ℕ))
  | [] => some []
  | (sym, ty) :: rest =>
    match jsMapGet ty supplies with
    | none => none
    | some v =>
      match buildResults supplies rest with
      | none => none
      | some r => some ((sym, decDigits v) :: r)

/-- Accumulator of the partial-recovery loop in the handler's inner
`catch`. -/
structure PartialScanOut where
  results : List (String × Option (List ℕ))
  total : ℕ
  hasData : Bool
  cache : LRUCache
deriving DecidableEq

/-- The partial-recovery loop: for each symbol read the cache with
`cache.get` (TTL-checking, mutating), collecting hits into the partial
result set and marking misses with a null supply. -/
def partialScan (now : ℤ) : List (String × String) → LRUCache → PartialScanOut
  | [], c => ⟨[], 0, false, c⟩
  | (sym, ty) :: rest, c =>
    match c.get now ty with
    | (some h, c1) =>
      let r := partialScan now rest c1
      ⟨(sym, some (decDigits h.value)) :: r.results, h.value + r.total, true, r.cache⟩
    | (none, c1) =>
      let r := partialScan now rest c1
      ⟨(sym, none) :: r.results, r.total, r.hasData, r.cache⟩

/-- The tail of the handler's inner `catch`: 206 with the partial set when
at least one symbol had cached data, else rethrow, landing in the outer
`catch`'s generic 500. -/
def partialPath (now : ℤ) (c : LRUCache) (recs : List (String × RateRecord)) :
    HttpResponse × ApiState :=
  let ps := partialScan now TOKENS c
  if ps.hasData then
    (⟨206, .partialData ps.results (decDigits ps.total) true true⟩, ⟨ps.cache, recs⟩)
  else
    (⟨500, .serverError⟩, ⟨ps.cache, recs⟩)

/-- `GET()`: rate-limit admission, then the aggregator; on success build
the per-symbol results, the re-parsed decimal total and the
`cached: cache.size > 0` flag for a 200; on any aggregation error run the
partial-recovery ladder (206 or 500). -/
def GET (now : ℤ) (ip : String) (f : ℕ → FetchOutcome) (st : ApiState) :
    HttpResponse × ApiState :=
  let rl := checkRateLimitMap now ip st.ipRequests
  if rl.1.allowed = false then
    (⟨429, .rateLimited (rl.1.resetInSeconds.getD 0)⟩, ⟨st.cache, rl.2⟩)
  else
    let agg := fetchAllSupplies now f st.cache
    match agg.1 with
    | .ok supplies =>
      match buildResults supplies TOKENS with
      | some results =>
        (⟨200, .success results
            (decDigits (results.foldl (fun s p => s + decVal p.2) 0))
            (decide (0 < agg.2.1.size))⟩,
          ⟨agg.2.1, rl.2⟩)
      | none => partialPath now agg.2.1 rl.2
    | .error _ => partialPath now agg.2.1 rl.2

/-! ## Derived predicates and concrete fixtures used by the checks -/

/-- The condition under which the `typesToFetch` scan actually selects a
cached key: a raw map hit that is unexpired (`age < ttl`) and nearing
expiration (`age ≥ 80% of ttl`). Expired-but-present keys fail it. -/
def nearingPred (now : ℤ) (c : LRUCache) (t : String) : Bool :=
  match jsMapGet t c.entries with
  | some e => decide (now - e.timestamp < c.ttl) && decide (5 * (now - e.timestamp) ≥ 4 * c.ttl)
  | none => false

def usdtType : String := "0x357b0b74bc833e95a115ad22604854d6b0fca151cecd94111770e5d6ffc9dc2b"

def usdcType : String := "0xbae207659db88bea0cbead6da0ed00aac12edcdda169e591cd41c94180b46f3b"

def usdeType : String := "0xf37a8864fe737eb8ec2c2931047047cbaed1beed3fb0e5b7c5526dafd3b9c2e9"

def susdeType : String := "0xb30a694a344edee467d9f82330bbe7c3b89f440a1ecd2da1f3bca266560fce69"

/-- A cache holding only the USDt asset type, written at time 0 (so its
age at time `CACHE_TTL` has exactly reached the TTL). -/
def cExpired : LRUCache := ⟨[(usdtType, ⟨7, 0, 0⟩)], MAX_CACHE_SIZE, CACHE_TTL⟩

/-- Three of the four configured types cached fresh at time 0; USDt absent. -/
def cFresh3 : LRUCache :=
  ⟨[(usdcType, ⟨5, 0, 0⟩), (usdeType, ⟨6, 0, 0⟩), (susdeType, ⟨7, 0, 0⟩)],
    MAX_CACHE_SIZE, CACHE_TTL⟩

/-- All four configured types cached fresh at time 0. -/
def cFresh4 : LRUCache :=
  ⟨[(usdtType, ⟨4, 0, 0⟩), (usdcType, ⟨5, 0, 0⟩), (usdeType, ⟨6, 0, 0⟩),
    (susdeType, ⟨7, 0, 0⟩)], MAX_CACHE_SIZE, CACHE_TTL⟩

/-- An upstream that always answers HTTP 429. -/
def f429 : ℕ → FetchOutcome := fun _ => .ok 429 .malformed

/-- A well-formed upstream item set covering all four configured types. -/
def items0 : List UpItem :=
  [⟨usdtType, .num 7⟩, ⟨usdcType, .num 8⟩, ⟨usdeType, .num 9⟩, ⟨susdeType, .num 10⟩]

/-- An upstream that always answers 200 with `items0` and no errors. -/
def fSucc : ℕ → FetchOutcome := fun _ => .ok 200 (.wellFormed items0 [])

/-- An upstream answering 200 with data for the USDt type only. -/
def fOkOne : ℕ → FetchOutcome := fun _ => .ok 200 (.wellFormed [⟨usdtType, .num 5⟩] [])

/-- An upstream failing with a network error, then a 503, then succeeding. -/
def fTransientTwice : ℕ → FetchOutcome :=
  fun n => if n = 0 then .netError
           else if n = 1 then .ok 503 .malformed
           else .ok 200 (.wellFormed [] [])

/-! ## Basic lemmas: decimal digits -/

theorem ofDigits_decDigitsCore (fuel n : ℕ) (h : n ≤ fuel) :
    Nat.ofDigits 10 (decDigitsCore fuel n) = n := by
  induction fuel generalizing n with
  | zero => interval_cases n; simp [decDigitsCore]
  | succ f ih =>
    rw [decDigitsCore]
    by_cases hn : n = 0
    · simp [hn]
    · rw [if_neg hn, Nat.ofDigits_cons, ih (n / 10) ?_, Nat.mod_add_div]
      have : n / 10 < n := Nat.div_lt_self (Nat.pos_of_ne_zero hn) (by norm_num)
      omega

/-- The decimal printer and parser are mutually inverse: `BigInt(x.toString())`
recovers `x` exactly. -/
theorem decVal_decDigits (n : ℕ) : decVal (decDigits n) = n := by
  simp [decVal, decDigits, ofDigits_decDigitsCore n n le_rfl]

/-! ## Basic lemmas: the `Map` model -/

theorem jsMapGet_jsMapSet_self {β : Type} (k : String) (v : β) (l : List (String × β)) :
    jsMapGet k (jsMapSet k v l) = some v := by
  induction l with
  | nil => simp [jsMapSet, jsMapGet]
  | cons p t ih =>
    obtain ⟨k1, v1⟩ := p
    by_cases h : k1 = k
    · simp [jsMapSet, jsMapGet, h]
    · simp [jsMapSet, jsMapGet, h, ih]

theorem jsMapGet_jsMapSet_ne {β : Type} (a k : String) (v : β) (l : List (String × β))
    (hne : a ≠ k) : jsMapGet a (jsMapSet k v l) = jsMapGet a l := by
  have hka : ¬ k = a := fun h => hne h.symm
  induction l with
  | nil => simp [jsMapSet, jsMapGet, hka]
  | cons p t ih =>
    obtain ⟨k1, v1⟩ := p
    by_cases h : k1 = k
    · subst h
      simp [jsMapSet, jsMapGet, hka]
    · by_cases h2 : k1 = a <;> simp [jsMapSet, jsMapGet, h, h2, hne, ih]

theorem jsMapGet_jsMapDelete_ne {β : Type} (a k : String) (l : List (String × β))
    (hne : a ≠ k) : jsMapGet a (jsMapDelete k l) = jsMapGet a l := by
  have hka : ¬ k = a := fun h => hne h.symm
  induction l with
  | nil => simp [jsMapDelete]
  | cons p t ih =>
    obtain ⟨k1, v1⟩ := p
    by_cases h : k1 = k
    · subst h
      simp [jsMapDelete, jsMapGet, hka]
    · by_cases h2 : k1 = a <;> simp [jsMapDelete, jsMapGet, h, h2, hne, ih]

theorem jsMapGet_eq_none_of_not_mem {β : Type} (k : String) (l : List (String × β))
    (h : k ∉ l.map Prod.fst) : jsMapGet k l = none := by
  induction l with
  | nil => rfl
  | cons p t ih =>
    obtain ⟨k1, v1⟩ := p
    simp only [List.map_cons, List.mem_cons, not_or] at h
    have hk1 : ¬ k1 = k := fun he => h.1 he.symm
    simp [jsMapGet, hk1, ih h.2]

theorem jsMapGet_jsMapDelete_self {β : Type} (k : String) (l : List (String × β))
    (hnd : (l.map Prod.fst).Nodup) : jsMapGet k (jsMapDelete k l) = none := by
  induction l with
  | nil => rfl
  | cons p t ih =>
    obtain ⟨k1, v1⟩ := p
    simp only [List.map_cons, List.nodup_cons] at hnd
    by_cases h : k1 = k
    · subst h
      simp only [jsMapDelete, if_pos rfl]
      exact jsMapGet_eq_none_of_not_mem k1 t hnd.1
    · simp [jsMapDelete, jsMapGet, h, ih hnd.2]

theorem jsMapSet_ne_nil {β : Type} (k : String) (v : β) (l : List (String × β)) :
    jsMapSet k v l ≠ [] := by
  cases l with
  | nil => simp [jsMapSet]
  | cons p t =>
    obtain ⟨k1, v1⟩ := p
    by_cases h : k1 = k <;> simp [jsMapSet, h]

theorem mem_keys_jsMapSet {β : Type} (a k : String) (v : β) (l : List (String × β)) :
    a ∈ (jsMapSet k v l).map Prod.fst ↔ a ∈ l.map Prod.fst ∨ a = k := by
  induction l with
  | nil => simp [jsMapSet]
  | cons p t ih =>
    obtain ⟨k1, v1⟩ := p
    by_cases h : k1 = k
    · subst h
      simp [jsMapSet]
      tauto
    · simp [jsMapSet, h, ih]
      tauto

theorem nodup_keys_jsMapSet {β : Type} (k : String) (v : β) (l : List (String × β))
    (hnd : (l.map Prod.fst).Nodup) : ((jsMapSet k v l).map Prod.fst).Nodup := by
  induction l with
  | nil => simp [jsMapSet]
  | cons p t ih =>
    obtain ⟨k1, v1⟩ := p
    simp only [List.map_cons, List.nodup_cons] at hnd
    by_cases h : k1 = k
    · subst h
      simpa [jsMapSet] using hnd
    · simp only [jsMapSet, if_neg h, List.map_cons, List.nodup_cons]
      refine ⟨fun hc => ?_, ih hnd.2⟩
      rcases (mem_keys_jsMapSet k1 k v t).1 hc with hm | he
      · exact hnd.1 hm
      · exact h he

theorem keys_jsMapDelete_sublist {β : Type} (k : String) (l : List (String × β)) :
    ((jsMapDelete k l).map Prod.fst).Sublist (l.map Prod.fst) := by
  induction l with
  | nil => simp [jsMapDelete]
  | cons p t ih =>
    obtain ⟨k1, v1⟩ := p
    by_cases h : k1 = k
    · simp only [jsMapDelete, if_pos h, List.map_cons]
      exact (List.Sublist.refl _).cons _
    · simp only [jsMapDelete, if_neg h, List.map_cons]
      exact ih.cons₂ k1

/-! ## Basic lemmas: the LRU cache -/

theorem LRUCache.evictLRU_ttl (c : LRUCache) (now : ℤ) : (c.evictLRU now).ttl = c.ttl := by
  simp only [LRUCache.evictLRU]
  split
  · rfl
  · split
    · split <;> rfl
    · rfl

theorem LRUCache.evictLRU_maxSize (c : LRUCache) (now : ℤ) :
    (c.evictLRU now).maxSize = c.maxSize := by
  simp only [LRUCache.evictLRU]
  split
  · rfl
  · split
    · split <;> rfl
    · rfl

theorem LRUCache.set_ttl (c : LRUCache) (now : ℤ) (k : String) (v : ℕ) :
    (c.set now k v).ttl = c.ttl := by
  simp only [LRUCache.set]
  split
  · exact c.evictLRU_ttl now
  · rfl

theorem nodup_keys_evictLRU (c : LRUCache) (now : ℤ)
    (hnd : (c.entries.map Prod.fst).Nodup) :
    (((c.evictLRU now).entries).map Prod.fst).Nodup := by
  simp only [LRUCache.evictLRU]
  split
  · exact hnd
  · split
    · split
      · exact hnd
      · exact hnd.sublist (keys_jsMapDelete_sublist _ _)
    · exact hnd

theorem nodup_keys_set (c : LRUCache) (now : ℤ) (k : String) (v : ℕ)
    (hnd : (c.entries.map Prod.fst).Nodup) :
    (((c.set now k v).entries).map Prod.fst).Nodup := by
  simp only [LRUCache.set]
  split
  · exact nodup_keys_jsMapSet _ _ _ (nodup_keys_evictLRU c now hnd)
  · exact nodup_keys_jsMapSet _ _ _ hnd

theorem jsMapGet_set_entries_self (c : LRUCache) (now : ℤ) (k : String) (v : ℕ) :
    jsMapGet k (c.set now k v).entries = some ⟨v, now, now⟩ := by
  simp only [LRUCache.set]
  exact jsMapGet_jsMapSet_self _ _ _

/-! ## C2: LRU eviction and the capacity bound -/

/-- C2: fails on the code. With `maxSize = 1`, two `set`s of distinct keys
in the same millisecond leave the cache holding 2 entries: `evictLRU`
starts its minimum at `Date.now()` and only evicts an entry whose
`lastAccessed` is strictly smaller, so an entry accessed in the current
millisecond is never evicted and the insert overflows the capacity,
contradicting both the claimed size invariant and the claimed exact
eviction of the least-recently-used entry. -/
theorem c2_capacity_overflow :
    ((((⟨[], 1, 3600000⟩ : LRUCache).set 0 "a" 1).set 0 "b" 2).size = 2
  ∧ (((⟨[], 1, 3600000⟩ : LRUCache).set 0 "a" 1).set 0 "b" 2).maxSize = 1) := by decide

/-! ## C3: TTL read semantics of the cache -/

/-- C3: for any cache with well-formed (duplicate-free) map keys, after
`set(k, v)` at time `now`, a `get(k)` at time `nowq` returns `v` (with the
stored creation timestamp and the nearing-expiration flag) whenever the
age is strictly below the TTL; once the age reaches the TTL the same call
returns absent and deletes the entry; and in general a `get` hit is always
strictly younger than the TTL. -/
theorem c3_ttl_read_semantics (c : LRUCache) (k : String) (v : ℕ) (now nowq : ℤ)
    (hnd : (c.entries.map Prod.fst).Nodup) :
    (nowq - now < c.ttl →
      ((c.set now k v).get nowq k).1 =
        some ⟨v, now, decide (5 * (nowq - now) ≥ 4 * c.ttl)⟩)
  ∧ (c.ttl ≤ nowq - now →
      ((c.set now k v).get nowq k).1 = none ∧
        jsMapGet k (((c.set now k v).get nowq k).2).entries = none)
  ∧ (∀ h1 : GetHit, (c.get now k).1 = some h1 → now - h1.timestamp < c.ttl) := by
  have hget := jsMapGet_set_entries_self c now k v
  have httl := c.set_ttl now k v
  refine ⟨?_, ?_, ?_⟩
  · intro hlt
    simp only [LRUCache.get, hget, httl]
    rw [if_neg (by omega : ¬ nowq - now ≥ c.ttl)]
  · intro hge
    simp only [LRUCache.get, hget, httl]
    rw [if_pos (by omega : nowq - now ≥ c.ttl)]
    refine ⟨rfl, ?_⟩
    exact jsMapGet_jsMapDelete_self k _ (nodup_keys_set c now k v hnd)
  · intro h1 hh
    simp only [LRUCache.get] at hh
    cases hj : jsMapGet k c.entries with
    | none =>
      rw [hj] at hh
      simp at hh
    | some e =>
      rw [hj] at hh
      dsimp only at hh
      by_cases hexp : now - e.timestamp ≥ c.ttl
      · rw [if_pos hexp] at hh
        simp at hh
      · rw [if_neg hexp] at hh
        simp only [Option.some.injEq] at hh
        rw [← hh]
        dsimp only
        omega

/-- Witness for C3 at a concrete input: a fresh read 100 ms after the set
returns the stored value, and an expired read (age = TTL) returns absent
and leaves no entry behind. -/
theorem c3_witness :
    ((100 : ℤ) - 0 < cache0.ttl
  ∧ ((cache0.set 0 "k" 5).get 100 "k").1 =
      some ⟨5, 0, decide (5 * ((100 : ℤ) - 0) ≥ 4 * cache0.ttl)⟩)
  ∧ (cache0.ttl ≤ (3600000 : ℤ) - 0
  ∧ ((cache0.set 0 "k" 5).get 3600000 "k").1 = none
  ∧ jsMapGet "k" (((cache0.set 0 "k" 5).get 3600000 "k").2).entries = none) :=
  ⟨⟨by decide, (c3_ttl_read_semantics cache0 "k" 5 0 100 (by decide)).1 (by decide)⟩,
    ⟨by decide, (c3_ttl_read_semantics cache0 "k" 5 0 3600000 (by decide)).2.1 (by decide)⟩⟩

/-! ## C5: the burst-rejection retry-after hint -/

/-- C5 (amended): whenever `checkRateLimit` rejects on the burst check, the
returned `resetInSeconds` hint is the constant `ceil(BURST_WINDOW/1000)`
= 10 seconds, for every record state and every arrival time. -/
theorem c5_burst_hint_constant (cnt : ℕ) (rt now : ℤ) (L : List ℤ)
    (h1 : now < rt)
    (h2 : BURST_LIMIT < (L.filter (fun t => decide (now - t < BURST_WINDOW))).length + 1) :
    (checkRateLimit now (some ⟨cnt, rt, L⟩)).1 = ⟨false, some 10⟩ := by
  simp only [checkRateLimit]
  rw [if_neg (by omega : ¬ now ≥ rt)]
  have hlen : ((L.filter (fun t => decide (now - t < BURST_WINDOW))) ++ [now]).length =
      (L.filter (fun t => decide (now - t < BURST_WINDOW))).length + 1 := by simp
  rw [if_pos (by rw [hlen]; exact h2)]
  have hc : ceilDivMs BURST_WINDOW = 10 := by decide
  rw [hc]

/-- C5 counterexample: at a state whose oldest in-window request arrived
5000 ms ago, the burst rejection reports 10 seconds (the full burst
window), not the 5 seconds remaining in the burst window that began at
that oldest request. -/
theorem c5_counterexample :
    (checkRateLimit 5000 (some ⟨6, 60000, [0, 1000, 2000, 3000, 4000]⟩)).1 = ⟨false, some 10⟩
  ∧ ceilDivMs (0 + BURST_WINDOW - 5000) = 5
  ∧ (10 : ℤ) ≠ 5 := by decide

/-- Witness for the amended C5 at a concrete rejected request. -/
theorem c5_witness :
    ((5000 : ℤ) < 60000
  ∧ BURST_LIMIT <
      (([0, 1000, 2000, 3000, 4000] : List ℤ).filter
        (fun t => decide ((5000 : ℤ) - t < BURST_WINDOW))).length + 1)
  ∧ (checkRateLimit 5000 (some ⟨6, 60000, [0, 1000, 2000, 3000, 4000]⟩)).1 = ⟨false, some 10⟩ :=
  ⟨⟨by decide, by decide⟩, c5_burst_hint_constant 6 60000 5000 _ (by decide) (by decide)⟩

/-! ## C6: retry policy of the fetch wrapper -/

theorem fetchWithRetry_client_return (f : ℕ → FetchOutcome) (r : ℕ) (d : ℚ) (i s : ℕ)
    (b : UpBody) (h : f i = .ok s b) (hc : s = 429 ∨ (400 ≤ s ∧ s < 500)) :
    fetchWithRetry f r d i = ⟨.ok (s, b), 0, 1⟩ := by
  cases r with
  | zero => simp only [fetchWithRetry, h]
  | succ r =>
    simp only [fetchWithRetry, h]
    rw [if_pos hc]

theorem fetchWithRetry_success_return (f : ℕ → FetchOutcome) (r : ℕ) (d : ℚ) (i s : ℕ)
    (b : UpBody) (h : f i = .ok s b) (h2 : 200 ≤ s) (h3 : s ≤ 299) :
    fetchWithRetry f r d i = ⟨.ok (s, b), 0, 1⟩ := by
  cases r with
  | zero => simp only [fetchWithRetry, h]
  | succ r =>
    simp only [fetchWithRetry, h]
    rw [if_neg (by omega : ¬ (s = 429 ∨ (400 ≤ s ∧ s < 500)))]
    rw [if_pos ⟨h2, h3⟩]

theorem fetchWithRetry_transient_step (f : ℕ → FetchOutcome) (r : ℕ) (d : ℚ) (i : ℕ)
    (h : f i = .netError ∨ ∃ s b, f i = .ok s b ∧ 500 ≤ s ∧ s ≤ 599) :
    fetchWithRetry f (r + 1) d i =
      ⟨(fetchWithRetry f r (d * (3 / 2)) (i + 1)).outcome,
        d + (fetchWithRetry f r (d * (3 / 2)) (i + 1)).elapsed,
        (fetchWithRetry f r (d * (3 / 2)) (i + 1)).calls + 1⟩ := by
  rcases h with h | ⟨s, b, h, hs1, hs2⟩
  · simp only [fetchWithRetry, h]
  · simp only [fetchWithRetry, h]
    rw [if_neg (by omega : ¬ (s = 429 ∨ (400 ≤ s ∧ s < 500)))]
    rw [if_neg (by omega : ¬ (200 ≤ s ∧ s ≤ 299))]

/-- C6: with retry budget `MAX_RETRIES = 2` and initial delay `d`, a
collaborator that fails transiently (network error or 5xx) on the first
two attempts and succeeds on the third yields the success after a total
backoff of `d + 1.5·d` over 3 attempts; and a collaborator answering 429
or any other 4xx on the first attempt is returned immediately with no
retry and no backoff. -/
theorem c6_retry_policy :
    (∀ (f : ℕ → FetchOutcome) (d : ℚ) (s2 : ℕ) (b2 : UpBody),
      (f 0 = .netError ∨ ∃ s b, f 0 = .ok s b ∧ 500 ≤ s ∧ s ≤ 599) →
      (f 1 = .netError ∨ ∃ s b, f 1 = .ok s b ∧ 500 ≤ s ∧ s ≤ 599) →
      f 2 = .ok s2 b2 → 200 ≤ s2 → s2 ≤ 299 →
      fetchWithRetry f MAX_RETRIES d 0 = ⟨.ok (s2, b2), d + d * (3 / 2), 3⟩)
  ∧ (∀ (f : ℕ → FetchOutcome) (d : ℚ) (s : ℕ) (b : UpBody),
      f 0 = .ok s b → (s = 429 ∨ (400 ≤ s ∧ s < 500)) →
      fetchWithRetry f MAX_RETRIES d 0 = ⟨.ok (s, b), 0, 1⟩) := by
  constructor
  · intro f d s2 b2 h0 h1 h2 hs2a hs2b
    have e2 : fetchWithRetry f 0 (d * (3 / 2) * (3 / 2)) 2 = ⟨.ok (s2, b2), 0, 1⟩ :=
      fetchWithRetry_success_return f 0 _ 2 s2 b2 h2 hs2a hs2b
    have e1 : fetchWithRetry f 1 (d * (3 / 2)) 1 =
        ⟨(fetchWithRetry f 0 (d * (3 / 2) * (3 / 2)) 2).outcome,
          d * (3 / 2) + (fetchWithRetry f 0 (d * (3 / 2) * (3 / 2)) 2).elapsed,
          (fetchWithRetry f 0 (d * (3 / 2) * (3 / 2)) 2).calls + 1⟩ :=
      fetchWithRetry_transient_step f 0 (d * (3 / 2)) 1 h1
    have e0 : fetchWithRetry f 2 d 0 =
        ⟨(fetchWithRetry f 1 (d * (3 / 2)) 1).outcome,
          d + (fetchWithRetry f 1 (d * (3 / 2)) 1).elapsed,
          (fetchWithRetry f 1 (d * (3 / 2)) 1).calls + 1⟩ :=
      fetchWithRetry_transient_step f 1 d 0 h0
    show fetchWithRetry f 2 d 0 = _
    rw [e0, e1, e2]
    dsimp only
    norm_num
  · intro f d s b h0 hc
    exact fetchWithRetry_client_return f MAX_RETRIES d 0 s b h0 hc

/-- Witness for C6: a network error then a 503 then a 200 gives the
success with total backoff `1000 + 1500`; an immediate 429 gives one
attempt and no backoff. -/
theorem c6_witness :
    fetchWithRetry fTransientTwice MAX_RETRIES 1000 0
      = ⟨.ok (200, .wellFormed [] []), 1000 + 1000 * (3 / 2), 3⟩
  ∧ fetchWithRetry f429 MAX_RETRIES 1000 0 = ⟨.ok (429, .malformed), 0, 1⟩ :=
  ⟨c6_retry_policy.1 fTransientTwice 1000 200 (.wellFormed [] []) (Or.inl rfl)
      (Or.inr ⟨503, .malformed, rfl, by norm_num, by norm_num⟩) rfl (by norm_num) (by norm_num),
    c6_retry_policy.2 f429 1000 429 .malformed rfl (Or.inl rfl)⟩

/-! ## C4: burst admission bound of the rate limiter -/

theorem runState_append (l1 l2 : List ℤ) (r? : Option RateRecord) :
    runState (l1 ++ l2) r? = runState l2 (runState l1 r?) := by
  induction l1 generalizing r? with
  | nil => rfl
  | cons t ts ih =>
    simp only [List.cons_append, runState]
    exact ih _

theorem runRL_concat (l : List ℤ) (x : ℤ) (r? : Option RateRecord) :
    runRL (l ++ [x]) r? = runRL l r? ++ [(checkRateLimit x (runState l r?)).1.allowed] := by
  induction l generalizing r? with
  | nil => rfl
  | cons t ts ih =>
    simp only [List.cons_append, runRL, runState, List.append_eq]
    rw [ih]

/-- State invariant of a single long-window record: after calls at
nondecreasing times `t0 :: pre`, all before the record's reset time, the
stored `requestTimestamps` are exactly the call times within one burst
window of the latest call (every call, admitted or rejected, pushes its
timestamp). -/
theorem runState_first_window (t0 : ℤ) (pre : List ℤ)
    (hs : List.Sorted (· ≤ ·) (t0 :: pre))
    (hw : ∀ t ∈ pre, t < t0 + RATE_LIMIT_WINDOW) :
    ∃ cnt, runState (t0 :: pre) none =
      some ⟨cnt, t0 + RATE_LIMIT_WINDOW,
        (t0 :: pre).filter (fun t => decide (pre.getLastD t0 - t < BURST_WINDOW))⟩ := by
  induction pre using List.reverseRecOn with
  | nil =>
    refine ⟨1, ?_⟩
    have h0 : (0 : ℤ) < BURST_WINDOW := by norm_num [BURST_WINDOW]
    simp [runState, checkRateLimit, List.getLastD, List.filter, h0]
  | append_singleton l y ih =>
    have hp : List.Pairwise (· ≤ ·) ((t0 :: l) ++ [y]) := hs
    rw [List.pairwise_append] at hp
    obtain ⟨hp1, -, hp3⟩ := hp
    have hle : ∀ a ∈ t0 :: l, a ≤ y := fun a ha => hp3 a ha y (by simp)
    have hwl : ∀ t ∈ l, t < t0 + RATE_LIMIT_WINDOW := fun t ht => hw t (by simp [ht])
    obtain ⟨cnt, hrec⟩ := ih hp1 hwl
    have hyW : y < t0 + RATE_LIMIT_WINDOW := hw y (by simp)
    rw [show t0 :: (l ++ [y]) = (t0 :: l) ++ [y] from rfl, runState_append, hrec]
    simp only [runState, checkRateLimit]
    rw [if_neg (by omega : ¬ y ≥ t0 + RATE_LIMIT_WINDOW)]
    have hlast : (l ++ [y]).getLastD t0 = y := List.getLastD_concat _ _ _
    have hlex : l.getLastD t0 ≤ y := hle _ (List.getLastD_mem_cons _ _)
    have hff : List.filter (fun t => decide (y - t < BURST_WINDOW))
          (List.filter (fun t => decide (l.getLastD t0 - t < BURST_WINDOW)) (t0 :: l)) =
        List.filter (fun t => decide (y - t < BURST_WINDOW)) (t0 :: l) := by
      rw [List.filter_filter]
      refine List.filter_congr ?_
      intro t ht
      by_cases hyt : y - t < BURST_WINDOW
      · have h2 : l.getLastD t0 - t < BURST_WINDOW := by omega
        rw [decide_eq_true hyt, decide_eq_true h2]
        rfl
      · rw [decide_eq_false hyt]
        simp
    have htgt : List.filter (fun t => decide ((l ++ [y]).getLastD t0 - t < BURST_WINDOW))
          ((t0 :: l) ++ [y]) =
        List.filter (fun t => decide (y - t < BURST_WINDOW)) (t0 :: l) ++ [y] := by
      have h0 : (0 : ℤ) < BURST_WINDOW := by norm_num [BURST_WINDOW]
      rw [hlast, List.filter_append]
      simp [h0]
    rw [htgt, hff]
    split
    · exact ⟨cnt, rfl⟩
    · split
      · exact ⟨cnt + 1, rfl⟩
      · exact ⟨cnt + 1, rfl⟩

/-- C4 (amended): within a single long-window record (all calls before the
record's reset time, nondecreasing times), a call is admitted only if at
most `BURST_LIMIT` of all the calls so far — itself included, rejected
calls included — lie within the burst window ending at it; so at most
`BURST_LIMIT` calls are admitted inside any burst-window-length interval
that does not cross a long-window reset. (Across a reset the burst history
is discarded and the bound fails, see the counterexample; the long window
is likewise a fixed window, not a sliding one.) -/
theorem c4_burst_admission_bound (t0 x : ℤ) (pre : List ℤ)
    (hs : List.Sorted (· ≤ ·) (t0 :: pre ++ [x]))
    (hw : ∀ t ∈ pre ++ [x], t < t0 + RATE_LIMIT_WINDOW)
    (hallow : (runRL (t0 :: pre ++ [x]) none).getLast? = some true) :
    (t0 :: pre ++ [x]).countP (fun t => decide (x - t < BURST_WINDOW)) ≤ BURST_LIMIT := by
  have hsp : List.Pairwise (· ≤ ·) ((t0 :: pre) ++ [x]) := hs
  rw [List.pairwise_append] at hsp
  obtain ⟨hp1, -, hp3⟩ := hsp
  have hle : ∀ a ∈ t0 :: pre, a ≤ x := fun a ha => hp3 a ha x (by simp)
  have hwl : ∀ t ∈ pre, t < t0 + RATE_LIMIT_WINDOW := fun t ht => hw t (by simp [ht])
  obtain ⟨cnt, hrec⟩ := runState_first_window t0 pre hp1 hwl
  have hxW : x < t0 + RATE_LIMIT_WINDOW := hw x (by simp)
  rw [show t0 :: pre ++ [x] = (t0 :: pre) ++ [x] from rfl, runRL_concat,
    List.getLast?_concat, hrec] at hallow
  simp only [Option.some.injEq] at hallow
  simp only [checkRateLimit] at hallow
  rw [if_neg (by omega : ¬ x ≥ t0 + RATE_LIMIT_WINDOW)] at hallow
  have hlex : pre.getLastD t0 ≤ x := hle _ (List.getLastD_mem_cons _ _)
  have hff : List.filter (fun t => decide (x - t < BURST_WINDOW))
        (List.filter (fun t => decide (pre.getLastD t0 - t < BURST_WINDOW)) (t0 :: pre)) =
      List.filter (fun t => decide (x - t < BURST_WINDOW)) (t0 :: pre) := by
    rw [List.filter_filter]
    refine List.filter_congr ?_
    intro t ht
    by_cases hyt : x - t < BURST_WINDOW
    · have h2 : pre.getLastD t0 - t < BURST_WINDOW := by omega
      rw [decide_eq_true hyt, decide_eq_true h2]
      rfl
    · rw [decide_eq_false hyt]
      simp
  rw [hff] at hallow
  by_cases hb : BURST_LIMIT <
      (List.filter (fun t => decide (x - t < BURST_WINDOW)) (t0 :: pre) ++ [x]).length
  · rw [if_pos hb] at hallow
    simp at hallow
  · rw [List.countP_eq_length_filter,
      show t0 :: pre ++ [x] = (t0 :: pre) ++ [x] from rfl, List.filter_append]
    have h0 : (0 : ℤ) < BURST_WINDOW := by norm_num [BURST_WINDOW]
    have hfx : List.filter (fun t => decide (x - t < BURST_WINDOW)) [x] = [x] := by
      simp [h0]
    rw [hfx]
    exact Nat.not_lt.mp hb

/-- C4 counterexample: the burst history is wiped at the long-window reset
boundary, so six requests are admitted within one burst-window-length
sliding interval even though the burst limit is five (and the claimed
sliding-window guarantee fails as stated). -/
theorem c4_counterexample :
    runRL [0, 55000, 56000, 57000, 58000, 59000, 60000] none
      = [true, true, true, true, true, true, true]
  ∧ ([0, 55000, 56000, 57000, 58000, 59000, 60000] : List ℤ).countP
      (fun t => decide (55000 ≤ t ∧ t < 55000 + BURST_WINDOW)) = 6
  ∧ BURST_LIMIT < 6 := by decide

/-- Witness for the amended C4 at a concrete two-call trace. -/
theorem c4_witness :
    (List.Sorted (· ≤ ·) ((0 : ℤ) :: [] ++ [1])
  ∧ (∀ t ∈ (([] ++ [1]) : List ℤ), t < 0 + RATE_LIMIT_WINDOW)
  ∧ (runRL ((0 : ℤ) :: [] ++ [1]) none).getLast? = some true)
  ∧ ((0 : ℤ) :: [] ++ [1]).countP (fun t => decide ((1 : ℤ) - t < BURST_WINDOW)) ≤ BURST_LIMIT :=
  ⟨⟨by decide, by decide, by decide⟩,
    c4_burst_admission_bound 0 1 [] (by decide) (by decide) (by decide)⟩

/-! ## C7: which keys the aggregator fetches -/

theorem LRUCache.get_ttl_const (c : LRUCache) (now : ℤ) (t : String) :
    ((c.get now t).2).ttl = c.ttl := by
  simp only [LRUCache.get]
  cases hj : jsMapGet t c.entries with
  | none => rfl
  | some e =>
    by_cases hexp : now - e.timestamp ≥ c.ttl
    · simp [hexp]
    · simp [hexp]

theorem get_preserves_jsMapGet_ne (c : LRUCache) (now : ℤ) (t s : String) (hne : s ≠ t) :
    jsMapGet s ((c.get now t).2).entries = jsMapGet s c.entries := by
  simp only [LRUCache.get]
  cases hj : jsMapGet t c.entries with
  | none => rfl
  | some e =>
    by_cases hexp : now - e.timestamp ≥ c.ttl
    · simp only [if_pos hexp]
      exact jsMapGet_jsMapDelete_ne s t _ hne
    · simp only [if_neg hexp]
      exact jsMapGet_jsMapSet_ne s t _ _ hne

theorem nearingPred_get_congr (c : LRUCache) (now : ℤ) (t s : String) (hne : s ≠ t) :
    nearingPred now ((c.get now t).2) s = nearingPred now c s := by
  simp only [nearingPred]
  rw [get_preserves_jsMapGet_ne c now t s hne, LRUCache.get_ttl_const]

/-- The nearing-expiration scan computes exactly the `nearingPred` filter
over the initial cache state, provided the scanned keys are distinct (each
`get` only mutates its own key). -/
theorem scanNearing_fst (now : ℤ) (ts : List String) : ∀ (c : LRUCache), ts.Nodup →
    (scanNearing now ts c).1 = ts.filter (nearingPred now c) := by
  induction ts with
  | nil => intro c _; rfl
  | cons t ts ih =>
    intro c hnd
    rw [List.nodup_cons] at hnd
    obtain ⟨hnot, hnd1⟩ := hnd
    have hhead : (match (c.get now t).1 with
        | some h => h.isNearingExpiration
        | none => false) = nearingPred now c t := by
      simp only [LRUCache.get, nearingPred]
      cases hj : jsMapGet t c.entries with
      | none => rfl
      | some e =>
        by_cases hexp : now - e.timestamp ≥ c.ttl
        · simp only [if_pos hexp]
          rw [decide_eq_false (by omega : ¬ now - e.timestamp < c.ttl)]
          simp
        · simp only [if_neg hexp]
          rw [decide_eq_true (by omega : now - e.timestamp < c.ttl)]
          simp
    have htail : (scanNearing now ts ((c.get now t).2)).1 =
        ts.filter (nearingPred now c) := by
      rw [ih ((c.get now t).2) hnd1]
      refine List.filter_congr ?_
      intro s hs
      exact nearingPred_get_congr c now t s (fun he => hnot (he ▸ hs))
    simp only [scanNearing]
    rw [hhead, htail, List.filter_cons]

/-- C7 (amended): the aggregator's fetch list is, for every cache state,
the deduplicated concatenation of the configured keys failing the raw
`has` probe with the keys whose entry is unexpired but at or past 80% of
the TTL — an expired-but-present key is selected by neither filter and is
not fetched. At most one batched upstream query is issued per invocation:
exactly one when this list is nonempty (as in the 3-fresh/1-missing
scenario, where the single query covers only the missing key) and none
when it is empty. -/
theorem c7_single_batched_query :
    (∀ (now : ℤ) (c : LRUCache),
      (selectToFetch now c).1 =
        dedupFirst (tokenTypes.filter (fun t => !(c.has t)) ++
          tokenTypes.filter (nearingPred now c)))
  ∧ (∀ (now : ℤ) (f : ℕ → FetchOutcome) (c : LRUCache),
      (fetchAllSupplies now f c).2.2 = if (selectToFetch now c).1 = [] then 0 else 1)
  ∧ (selectToFetch 1000 cFresh3).1 = [usdtType]
  ∧ (fetchAllSupplies 1000 fOkOne cFresh3).2.2 = 1
  ∧ (selectToFetch 1000 cFresh4).1 = []
  ∧ (fetchAllSupplies 1000 fOkOne cFresh4).2.2 = 0 := by
  refine ⟨?_, ?_, by decide, by decide, by decide, by decide⟩
  · intro now c
    simp only [selectToFetch]
    rw [scanNearing_fst now tokenTypes c (by decide)]
  · intro now f c
    simp only [fetchAllSupplies]
    split
    · rfl
    · repeat' first
      | rfl
      | split

/-- C7 counterexample: the USDt key is present but expired (age exactly
TTL, hence at least 80% of TTL), so the claim's characterisation — keys
absent from the cache or with age at least 80% of TTL — includes it, yet
the computed fetch list omits it. -/
theorem c7_counterexample :
    usdtType ∈ tokenTypes.filter
        (fun t => !(cExpired.has t) ||
          (match jsMapGet t cExpired.entries with
           | some e => decide (5 * ((3600000 : ℤ) - e.timestamp) ≥ 4 * cExpired.ttl)
           | none => false))
  ∧ usdtType ∉ (selectToFetch 3600000 cExpired).1
  ∧ (selectToFetch 3600000 cExpired).1 ≠ tokenTypes.filter
        (fun t => !(cExpired.has t) ||
          (match jsMapGet t cExpired.entries with
           | some e => decide (5 * ((3600000 : ℤ) - e.timestamp) ≥ 4 * cExpired.ttl)
           | none => false)) := by decide

/-! ## Cache nonemptiness along successful aggregations -/

theorem get_some_entries_ne_nil (c : LRUCache) (now : ℤ) (k : String) (h : GetHit)
    (hg : (c.get now k).1 = some h) : ((c.get now k).2).entries ≠ [] := by
  simp only [LRUCache.get] at hg ⊢
  cases hj : jsMapGet k c.entries with
  | none =>
    rw [hj] at hg
    simp at hg
  | some e =>
    rw [hj] at hg
    dsimp only at hg ⊢
    by_cases hexp : now - e.timestamp ≥ c.ttl
    · rw [if_pos hexp] at hg
      simp at hg
    · rw [if_neg hexp]
      dsimp only
      exact jsMapSet_ne_nil _ _ _

theorem readAllGet_ok_entries_ne_nil (now : ℤ) (e : AggErr) :
    ∀ (ts : List String) (c : LRUCache), ts ≠ [] →
      ∀ l, (readAllGet now e ts c).1 = .ok l → ((readAllGet now e ts c).2).entries ≠ [] := by
  intro ts
  induction ts with
  | nil => intro c h; exact absurd rfl h
  | cons t ts ih =>
    intro c _ l
    simp only [readAllGet]
    rcases hget : c.get now t with ⟨og, c1⟩
    cases og with
    | none =>
      intro hok
      simp at hok
    | some h =>
      dsimp only
      rcases hrec : readAllGet now e ts c1 with ⟨rr, c2⟩
      cases rr with
      | error e2 =>
        intro hok
        simp at hok
      | ok rest =>
        intro _
        dsimp only
        cases ts with
        | nil =>
          simp only [readAllGet] at hrec
          injection hrec with h1 h2
          rw [← h2]
          have hg1 : (c.get now t).1 = some h := by rw [hget]
          have hxx := get_some_entries_ne_nil c now t h hg1
          rw [hget] at hxx
          exact hxx
        | cons t2 ts2 =>
          have hyy := ih c1 (by simp) rest (by rw [hrec])
          rw [hrec] at hyy
          exact hyy

theorem fallbackGo_zero_entries_ne_nil (now : ℤ) :
    ∀ (ts : List String) (c : LRUCache), ts ≠ [] →
      (fallbackGo now ts c).2.1 = 0 → ((fallbackGo now ts c).2.2).entries ≠ [] := by
  intro ts
  induction ts with
  | nil => intro c h; exact absurd rfl h
  | cons t ts ih =>
    intro c _
    simp only [fallbackGo]
    rcases hget : c.get now t with ⟨og, c1⟩
    cases og with
    | none =>
      intro hmiss
      dsimp only at hmiss
      simp at hmiss
    | some h =>
      dsimp only
      intro hmiss
      cases ts with
      | nil =>
        simp only [fallbackGo]
        have hg1 : (c.get now t).1 = some h := by rw [hget]
        have hxx := get_some_entries_ne_nil c now t h hg1
        rw [hget] at hxx
        exact hxx
      | cons t2 ts2 => exact ih c1 (by simp) hmiss

theorem fallbackToCachedValues_ok_entries_ne_nil (now : ℤ) (ts : List String) (c : LRUCache)
    (hts : ts ≠ []) (l : List (String × ℕ))
    (hok : (fallbackToCachedValues now ts c).1 = .ok l) :
    ((fallbackToCachedValues now ts c).2).entries ≠ [] := by
  simp only [fallbackToCachedValues] at hok ⊢
  by_cases hm : 0 < (fallbackGo now ts c).2.1
  · rw [if_pos hm] at hok
    simp at hok
  · rw [if_neg hm]
    dsimp only
    exact fallbackGo_zero_entries_ne_nil now ts c hts (by omega)

theorem readAllGet_pair_ok_entries (now : ℤ) (e : AggErr) (ts : List String) (c : LRUCache)
    (hts : ts ≠ []) {l2 : List (String × ℕ)} {c2 : LRUCache}
    (heq : readAllGet now e ts c = (.ok l2, c2)) : c2.entries ≠ [] := by
  have h1 : (readAllGet now e ts c).1 = .ok l2 := by rw [heq]
  have h2 := readAllGet_ok_entries_ne_nil now e ts c hts l2 h1
  rw [heq] at h2
  exact h2

theorem fallback_pair_ok_entries (now : ℤ) (ts : List String) (c : LRUCache)
    (hts : ts ≠ []) {l2 : List (String × ℕ)} {c2 : LRUCache}
    (heq : fallbackToCachedValues now ts c = (.ok l2, c2)) : c2.entries ≠ [] := by
  have h1 : (fallbackToCachedValues now ts c).1 = .ok l2 := by rw [heq]
  have h2 := fallbackToCachedValues_ok_entries_ne_nil now ts c hts l2 h1
  rw [heq] at h2
  exact h2

/-- Every path on which `fetchAllSupplies` succeeds ends with a successful
`cache.get` for each configured key, so the cache map cannot be empty
afterwards. -/
theorem fetchAllSupplies_ok_entries_ne_nil (now : ℤ) (f : ℕ → FetchOutcome) (c : LRUCache)
    (l : List (String × ℕ)) (hok : (fetchAllSupplies now f c).1 = .ok l) :
    ((fetchAllSupplies now f c).2.1).entries ≠ [] := by
  have htt : tokenTypes ≠ [] := by decide
  revert hok
  simp only [fetchAllSupplies]
  split
  · intro hok
    dsimp only at hok ⊢
    exact readAllGet_ok_entries_ne_nil now .jsTypeError tokenTypes _ htt l hok
  · split
    · intro hok
      dsimp only at hok ⊢
      exact fallbackToCachedValues_ok_entries_ne_nil now tokenTypes _ htt l hok
    · split
      · split
        · rename_i l2 c2 heq
          intro _
          dsimp only
          exact readAllGet_pair_ok_entries now _ tokenTypes _ htt heq
        · rename_i e2 c2 heq
          intro hok
          dsimp only at hok ⊢
          exact fallbackToCachedValues_ok_entries_ne_nil now tokenTypes c2 htt l hok
      · split
        · intro hok
          dsimp only at hok ⊢
          exact fallbackToCachedValues_ok_entries_ne_nil now tokenTypes _ htt l hok
        · split
          · split
            · rename_i l2 c2 heq
              intro _
              dsimp only
              exact fallback_pair_ok_entries now tokenTypes _ htt heq
            · rename_i e2 c2 heq
              intro hok
              dsimp only at hok ⊢
              exact fallbackToCachedValues_ok_entries_ne_nil now tokenTypes c2 htt l hok
          · split
            · split
              · rename_i l2 c2 heq
                intro _
                dsimp only
                exact fallback_pair_ok_entries now tokenTypes _ htt heq
              · rename_i e2 c2 heq
                intro hok
                dsimp only at hok ⊢
                exact fallbackToCachedValues_ok_entries_ne_nil now tokenTypes c2 htt l hok
            · split
              · rename_i l2 c2 heq
                intro _
                dsimp only
                exact readAllGet_pair_ok_entries now _ tokenTypes _ htt heq
              · rename_i e2 c2 heq
                intro hok
                dsimp only at hok ⊢
                exact fallbackToCachedValues_ok_entries_ne_nil now tokenTypes c2 htt l hok

theorem foldl_add_decVal (L : List (String × List ℕ)) (a : ℕ) :
    L.foldl (fun s p => s + decVal p.2) a = a + (L.map (fun p => decVal p.2)).sum := by
  induction L generalizing a with
  | nil => simp
  | cons p t ih => simp [List.foldl_cons, ih, add_assoc]

/-- Characterisation of every 200 response: it is a `success` body whose
`cached` flag is true and whose `total` is the decimal string of the exact
sum of the values of the supply strings in the response. -/
theorem GET_200_characterization (now : ℤ) (ip : String) (f : ℕ → FetchOutcome) (st : ApiState)
    (h200 : (GET now ip f st).1.status = 200) :
    ∃ sup tot, (GET now ip f st).1.body = .success sup tot true ∧
      tot = decDigits ((sup.map (fun p => decVal p.2)).sum) := by
  revert h200
  simp only [GET]
  split
  · intro h
    simp at h
  · rcases hagg : (fetchAllSupplies now f st.cache).1 with eA | supplies
    · intro h
      simp only [partialPath] at h
      split at h <;> simp at h
    · dsimp only
      rcases hbuild : buildResults supplies TOKENS with _ | results
      · intro h
        simp only [partialPath] at h
        split at h <;> simp at h
      · dsimp only
        intro _
        have hne := fetchAllSupplies_ok_entries_ne_nil now f st.cache supplies hagg
        have hsz : decide (0 < ((fetchAllSupplies now f st.cache).2.1).size) = true := by
          rw [decide_eq_true_eq]
          simp only [LRUCache.size]
          exact List.length_pos.mpr hne
        refine ⟨results, decDigits ((results.map (fun p => decVal p.2)).sum), ?_, rfl⟩
        dsimp only
        rw [hsz, foldl_add_decVal, zero_add]

/-! ## C1: the fallback does not serve expired entries -/

/-- C1: fails on the code. `cache.get` enforces the TTL and deletes
expired entries, so with the USDt key cached but exactly at TTL age and
the upstream answering 429, the aggregation throws `Missing data` even
though the key has been cached (contradicting `fail only for a key never
cached`), and the handler's partial recovery — which goes through the same
TTL-checking `get`, not a TTL-ignoring read — finds nothing and the
request ends in the generic 500. -/
theorem c1_expired_entry_not_served :
    cExpired.has usdtType = true
  ∧ CACHE_TTL ≤ (3600000 : ℤ) - 0
  ∧ (fetchAllSupplies 3600000 f429 cExpired).1 = .error .missingData
  ∧ (GET 3600000 "203.0.113.7" f429 ⟨cExpired, []⟩).1 = ⟨500, .serverError⟩ := by decide

/-! ## C8: cold cache plus upstream 429 gives a generic 500 -/

/-- C8: with no entry cached for any configured key and the upstream
answering 429 (whatever its body), the 429-induced failure propagates
through `fallbackToCachedValues` as `Missing data`, the partial-recovery
loop finds no cached symbol, and the handler responds 500 with the
constant generic error body, for every arrival time and client. -/
theorem c8_cold_cache_throttled_500 (now : ℤ) (ip : String) (b : UpBody) :
    (GET now ip (fun _ => .ok 429 b) ⟨cache0, []⟩).1 = ⟨500, .serverError⟩
  ∧ (fetchAllSupplies now (fun _ => .ok 429 b) cache0).1 = .error .missingData := by
  constructor <;> rfl

/-! ## C9: the total is the exact decimal sum -/

/-- C9: on every 200 response the `total` field is the decimal string of
the exact arbitrary-precision sum of the values of the supply strings in
the `supplies` array (the handler re-parses each supply string with
`BigInt` and folds with bigint addition, losing no precision); and on the
spec's example figures the sum of `1130000000600000`, `284452249983816`,
`183411687` and `65235918477665` prints as `1479688352473168`. -/
theorem c9_total_is_exact_sum :
    (∀ (now : ℤ) (ip : String) (f : ℕ → FetchOutcome) (st : ApiState),
      (GET now ip f st).1.status = 200 →
      (match (GET now ip f st).1.body with
       | .success sup tot _ => tot = decDigits ((sup.map (fun p => decVal p.2)).sum)
       | _ => False))
  ∧ decDigits
      (decVal [1, 1, 3, 0, 0, 0, 0, 0, 0, 0, 6, 0, 0, 0, 0, 0] +
        decVal [2, 8, 4, 4, 5, 2, 2, 4, 9, 9, 8, 3, 8, 1, 6] +
        decVal [1, 8, 3, 4, 1, 1, 6, 8, 7] +
        decVal [6, 5, 2, 3, 5, 9, 1, 8, 4, 7, 7, 6, 6, 5]) =
      [1, 4, 7, 9, 6, 8, 8, 3, 5, 2, 4, 7, 3, 1, 6, 8] := by
  constructor
  · intro now ip f st h200
    obtain ⟨sup, tot, hbody, htot⟩ := GET_200_characterization now ip f st h200
    rw [hbody]
    exact htot
  · decide

/-- Witness for C9 at a concrete successful request. -/
theorem c9_witness :
    (GET 0 "client" fSucc ⟨cache0, []⟩).1.status = 200
  ∧ (match (GET 0 "client" fSucc ⟨cache0, []⟩).1.body with
     | .success sup tot _ => tot = decDigits ((sup.map (fun p => decVal p.2)).sum)
     | _ => False) :=
  ⟨by decide, c9_total_is_exact_sum.1 0 "client" fSucc ⟨cache0, []⟩ (by decide)⟩

/-! ## C10: the cached flag on 200 responses -/

/-- C10: the `cached` field is computed as `cache.size > 0`, and a
successful aggregation necessarily leaves every configured key readable in
the cache, so on every 200 response the flag is `true` — it never
distinguishes freshly fetched data from data served out of the cache. -/
theorem c10_cached_flag_always_true (now : ℤ) (ip : String) (f : ℕ → FetchOutcome)
    (st : ApiState) (h200 : (GET now ip f st).1.status = 200) :
    ∃ sup tot, (GET now ip f st).1.body = .success sup tot true := by
  obtain ⟨sup, tot, hbody, -⟩ := GET_200_characterization now ip f st h200
  exact ⟨sup, tot, hbody⟩

/-- Witness for C10 at a concrete successful request. -/
theorem c10_witness :
    (GET 0 "client2" fSucc ⟨cache0, []⟩).1.status = 200
  ∧ ∃ sup tot, (GET 0 "client2" fSucc ⟨cache0, []⟩).1.body = .success sup tot true :=
  ⟨by decide, c10_cached_flag_always_true 0 "client2" fSucc ⟨cache0, []⟩ (by decide)⟩
